import Mathlib

/-!
Shallow embedding of the FileClassify core pipeline.

The Python sources embedded here are:
* `src/core/utils.py` — `parse_rule_string`, `generate_target_path`;
* `src/core/llm/local_llama.py` — `LocalLlamaLLM.classify`, `LocalLlamaLLM.extract_json`;
* `src/core/parsers/pdf_parser.py` — `PDFParser.extract_text`, `PDFParser._extract_with_ocr`;
* `src/core/ai_engine.py` — `SYSTEM_PROMPT`, `build_dynamic_prompt`;
* `src/core/parsers/__init__.py` — `ParserFactory`.

Python strings are modelled as `List Char` (wrapped into `String` at the
interfaces); `str.strip`/`str.lower` are modelled character-wise (ASCII case
folding, ASCII whitespace — the characters the repository actually feeds them).
External library calls (the LLM backend, the OCR engine, `json.loads`) are
abstracted as function parameters, so every repository-level code path stays
explicit.
-/

namespace FileClassify

/-! ## Python string primitives -/

/-- Whitespace recognized by Python `str.strip()` (ASCII portion). -/
def pySpace (c : Char) : Bool :=
  c == ' ' || c == '\t' || c == '\n' || c == '\r' || c == '\x0b' || c == '\x0c'

/-- Python `str.strip()` on the character list: drop leading and trailing whitespace. -/
def stripL (l : List Char) : List Char :=
  List.rdropWhile pySpace (l.dropWhile pySpace)

/-- Python `str.lower()` on one character (ASCII case folding). -/
def lowerChar (c : Char) : Char :=
  if 65 ≤ c.toNat ∧ c.toNat ≤ 90 then Char.ofNat (c.toNat + 32) else c

/-- Python `str.lower()` on the character list. -/
def lowerL (l : List Char) : List Char :=
  l.map lowerChar

/-- Does `l` start with `pre`? (used to model Python substring search). -/
def startsList : List Char → List Char → Bool
  | [], _ => true
  | _ :: _, [] => false
  | a :: as, b :: bs => a == b && startsList as bs

/-- Python `needle in hay` substring test on character lists. -/
def containsSub (needle : List Char) : List Char → Bool
  | [] => startsList needle []
  | c :: t => startsList needle (c :: t) || containsSub needle t

/-- Split before/after the first occurrence of `sep` in `s` (`none` if absent). -/
def findSplit (sep : List Char) : List Char → Option (List Char × List Char)
  | [] => none
  | c :: t =>
    if startsList sep (c :: t) then some ([], (c :: t).drop sep.length)
    else (findSplit sep t).map (fun ab => (c :: ab.1, ab.2))

/-- Fuelled worker for `pySplitL`. -/
def splitSubF (sep : List Char) : Nat → List Char → List (List Char)
  | 0, s => [s]
  | n + 1, s =>
    match findSplit sep s with
    | none => [s]
    | some (a, b) => a :: splitSubF sep n b

/-- Python `s.split(sep)` for a non-empty separator (left-to-right, non-overlapping). -/
def pySplitL (sep s : List Char) : List (List Char) :=
  splitSubF sep s.length s

/-- Split a character list at every character satisfying `p`
(Python `re.split` on a single-character class). -/
def splitOnPred (p : Char → Bool) : List Char → List (List Char)
  | [] => [[]]
  | c :: t =>
    match splitOnPred p t with
    | [] => [[]]
    | h :: r => if p c then [] :: h :: r else (c :: h) :: r

/-- Python `sep.join(parts)`. -/
def joinSep (sep : String) : List String → String
  | [] => ""
  | [x] => x
  | x :: y :: t => x ++ sep ++ joinSep sep (y :: t)

/-! ## Rule DSL parser (`src/core/utils.py`, `parse_rule_string`) -/

/-- One parsed field reference: canonical key plus optional enumerated options. -/
structure RuleSpec where
  key : String
  options : Option (List String)
deriving DecidableEq, Repr

/-- The bilingual synonym table `field_mapping` from `parse_rule_string`. -/
def field_mapping : List (String × String) :=
  [("类型", "category"), ("category", "category"),
   ("年份", "year"), ("year", "year"),
   ("月份", "month"), ("month", "month"),
   ("原文件名", "original_name"), ("original name", "original_name"),
   ("摘要", "summary"), ("summary", "summary")]

/-- Python `field_mapping.get(name, name)`: table lookup with identity fallback. -/
def fieldLookup (name : String) : String :=
  ((field_mapping.find? (fun p => p.1 == name)).map (fun p => p.2)).getD name

/-- The match semantics of `re.match(r'^([^\[]+)(?:\s*\[([^\]]+)\])?$', part)`,
derived by hand: group 1 is the (non-empty) run of non-`[` characters at the
start; the optional group matches exactly when the remainder is a bracketed,
non-empty run of non-`]` characters closing at the end of the string.  Returns
`(group1, group2?)` on a match.  Greediness of group 1 and of `[^\]]+` makes
this decomposition the unique match. -/
def matchRulePattern (part : List Char) : Option (List Char × Option (List Char)) :=
  let a := part.takeWhile (· != '[')
  match part.dropWhile (· != '[') with
  | [] => if a = [] then none else some (a, none)
  | _ :: rest =>
    let b := rest.takeWhile (· != ']')
    if a = [] then none
    else if b = [] then none
    else
      match rest.dropWhile (· != ']') with
      | [']'] => some (a, some b)
      | _ => none

/-- Comma variants accepted between bracketed options (`re.split(r'[,，]', ...)`). -/
def isComma (c : Char) : Bool := c == ',' || c == '，'

/-- The options cleanup from `parse_rule_string`:
`[opt.strip() for opt in re.split(r'[,，]', options_str) if opt.strip()]`. -/
def cleanOpts (ostr : List Char) : List String :=
  (((splitOnPred isComma ostr).map stripL).filter (fun o => o ≠ [])).map (fun o => ⟨o⟩)

/-- The per-token body of the `for part in parts` loop in `parse_rule_string`. -/
def parseRulePartL (part : List Char) : RuleSpec :=
  match matchRulePattern (stripL part) with
  | some (g1, og2) =>
    { key := fieldLookup ⟨lowerL (stripL g1)⟩
      options :=
        match og2 with
        | some ostr => if ostr ≠ [] then some (cleanOpts ostr) else none
        | none => none }
  | none => { key := fieldLookup ⟨lowerL part⟩, options := none }

/-- `parse_rule_string` from `src/core/utils.py`. -/
def parse_rule_string (rule_string : String) : List RuleSpec :=
  if rule_string.data = [] || stripL rule_string.data = [] then []
  else
    (((pySplitL ['>', '>'] rule_string.data).map stripL).map parseRulePartL)

/-! ## Path generator (`src/core/utils.py`, `generate_target_path`) -/

/-- A Python value as it can appear in the AI data dict (`json.loads` output,
restricted to the scalar shapes the pipeline handles). -/
inductive PyVal where
  | vstr (s : String)
  | vint (n : Int)
  | vbool (b : Bool)
  | vnone
deriving DecidableEq, Repr

/-- Python truthiness of a `PyVal`. -/
def pyTruthy : PyVal → Bool
  | .vstr s => s ≠ ""
  | .vint n => n ≠ 0
  | .vbool b => b
  | .vnone => false

/-- Python `str(value)` on a `PyVal`. -/
def pyStr : PyVal → String
  | .vstr s => s
  | .vint n => toString n
  | .vbool b => if b then "True" else "False"
  | .vnone => "None"

/-- The AI data dict: a string-keyed mapping, modelled as an association list. -/
abbrev ClassRecord := List (String × PyVal)

/-- Python `field_key in ai_data_dict` / `ai_data_dict.get(field_key)`. -/
def dictGetV (record : ClassRecord) (k : String) : Option PyVal :=
  (List.find? (fun p => p.1 == k) record).map (fun p => p.2)

/-- The per-rule segment chosen by the loop body of `generate_target_path`. -/
def segmentOf (record : ClassRecord) (rule : RuleSpec) : String :=
  match dictGetV record rule.key with
  | some v => if pyTruthy v ∧ stripL (pyStr v).data ≠ [] then ⟨stripL (pyStr v).data⟩ else "Unknown"
  | none => "Unknown"

/-- One step of POSIX `os.path.join`: `join(path, b)`. -/
def ospJoin2 (path b : String) : String :=
  if b.data.head? = some '/' then b
  else if path = "" ∨ path.data.getLast? = some '/' then path ++ b
  else path ++ "/" ++ b

/-- POSIX `os.path.join(*parts)` over a non-empty parts list. -/
def ospathJoinList : List String → String
  | [] => ""
  | h :: t => t.foldl ospJoin2 h

/-- `generate_target_path` from `src/core/utils.py`. -/
def generate_target_path (rule_string : String) (record : ClassRecord) : String :=
  let parsed := parse_rule_string rule_string
  if parsed = [] then "Unknown"
  else
    let parts := parsed.map (segmentOf record)
    if parts = [] then "Unknown" else ospathJoinList parts

/-! ## LLM port (`src/core/llm/local_llama.py`) -/

/-- The option-scanning loop of `LocalLlamaLLM.classify`:
`for option in options: if option.lower() in response_clean.lower(): return option`.
`rc` is the already lowered, stripped response. -/
def classifyScan (rc : List Char) : List String → Option String
  | [] => none
  | o :: t => if containsSub (lowerL o.data) rc then some o else classifyScan rc t

/-- `LocalLlamaLLM.classify`, with the backend's raw response supplied as a
parameter (the `generate` call is an external-backend effect).  `none` models
the `IndexError` raised by `options[0]` on an empty options list. -/
def classifyChoose (response : String) (options : List String) : Option String :=
  match classifyScan (lowerL (stripL response.data)) options with
  | some o => some o
  | none => options.head?

/-- The match semantics of `re.search(r'\{.*\}', response, re.DOTALL)`, derived
by hand: the leftmost match starts at the first `\x7b` of the string, and the
greedy `.*` extends it to the last `\x7d`; a match exists exactly when some
`\x7b` is followed (strictly later) by some `\x7d`.  Returns the matched span. -/
def braceSpanL (s : List Char) : Option (List Char) :=
  let t := s.dropWhile (· != '{')
  let u := List.rdropWhile (· != '}') t
  if u = [] then none else some u

/-- `LocalLlamaLLM.extract_json`, with the backend response supplied as a
parameter and `json.loads` abstracted as a `decode` function (`none` models
`json.JSONDecodeError`).  `Except.error` models the raised `ValueError`
(`InvalidModelResponse`). -/
def extract_json {α : Type} (decode : String → Option α) (response : String) : Except String α :=
  match braceSpanL response.data with
  | some u =>
    match decode ⟨u⟩ with
    | some j => .ok j
    | none => .error "响应中的 JSON 无效"
  | none => .error "响应中没有找到 JSON 对象"

/-! ## PDF hybrid extraction (`src/core/parsers/pdf_parser.py`) -/

def MIN_TEXT_LENGTH : Nat := 50
def MAX_OCR_PAGES : Nat := 7
def SAMPLE_PAGES : Nat := 5

/-- The sampling pass: direct-extract the first `SAMPLE_PAGES` pages, keep the
non-empty ones, join with newlines.  A page's directly extracted text is the
corresponding entry of `pages`. -/
def sampledText (pages : List String) : String :=
  joinSep "\n" ((pages.take SAMPLE_PAGES).filter (fun t => t != ""))

/-- `PDFParser._extract_with_ocr`, with the OCR engine abstracted as a function
from a page's (rasterized) content to its recognized text lines.  Pages whose
OCR result is empty contribute nothing; the rest are prefixed with the page
marker and joined with blank lines. -/
def extractWithOcr (ocr : String → List String) (pages : List String) : String :=
  joinSep "\n\n"
    (((pages.take MAX_OCR_PAGES).enum).filterMap (fun ip =>
      if ocr ip.2 = [] then none
      else some ("[第 " ++ toString (ip.1 + 1) ++ " 页]\n" ++ joinSep "\n" (ocr ip.2))))

/-- The tail-page concatenation of `PDFParser.extract_text`:
`for page_num in range(SAMPLE_PAGES, total): if text: extracted_text += '\n' + text`. -/
def tailTextPdf (pages : List String) : String :=
  String.join (((pages.drop SAMPLE_PAGES).filter (fun t => t != "")).map (fun t => "\n" ++ t))

/-- Steps 2–4 of `PDFParser.extract_text`: the sampling pass followed by the
conditional OCR escalation, before tail pages are appended. -/
def pdfStage24 (ocr : String → List String) (pages : List String) : String :=
  let sampled := sampledText pages
  if (stripL sampled.data).length < MIN_TEXT_LENGTH ∧ 0 < pages.length then
    let o := extractWithOcr ocr pages
    if o != "" then o else sampled
  else sampled

/-- `PDFParser.extract_text` (the `fitz` happy path), returning the extracted
text together with a flag recording whether the OCR-escalation branch was
taken. -/
def pdfExtractText (ocr : String → List String) (pages : List String) : String × Bool :=
  let afterEsc := pdfStage24 ocr pages
  let final := if SAMPLE_PAGES < pages.length then afterEsc ++ tailTextPdf pages else afterEsc
  (final, decide ((stripL (sampledText pages).data).length < MIN_TEXT_LENGTH ∧ 0 < pages.length))

/-! ## Dynamic prompt builder (`src/core/ai_engine.py`) -/

/-- The `SYSTEM_PROMPT` constant of `src/core/ai_engine.py`. -/
def SYSTEM_PROMPT : String :=
  "You are a professional file classification assistant. Your task is to analyze file names and extract structured information.\n\nYou must ALWAYS return a valid JSON object with the following fields:\n- category: The category/type of the file (e.g., \"Work\", \"Personal\", \"Study\", \"Finance\", etc.)\n- year: The year associated with the file (4-digit format, e.g., \"2024\")\n- month: The month associated with the file (2-digit format, e.g., \"01\", \"12\")\n- summary: A brief summary or description of the file content\n- original_name: The original file name without extension\n\nRules:\n1. If you cannot determine a field, use \"Unknown\" as the value.\n2. For year: Try to extract from file name, if not found, use current year.\n3. For month: Try to extract from file name, if not found, use \"Unknown\".\n4. For category: Infer from file name and context. Common categories: Work, Personal, Study, Finance, Photos, Documents, Contract, Report, Invoice, Manual, etc.\n5. For Chinese file names, understand the context and extract information accordingly.\n   - 工作/会议/报告 → Work\n   - 财务/发票/账单 → Finance\n   - 合同/协议 → Contract\n   - 个人/私人 → Personal\n   - 学习/课程 → Study\n6. Always return valid JSON format.\n7. Field names must be in lowercase English.\n\nExample 1 (Chinese file):\nInput: \"2024年度财务报告_Q1.pdf\"\nOutput:\n\x7b\n    \"category\": \"Finance\",\n    \"year\": \"2024\",\n    \"month\": \"Unknown\",\n    \"summary\": \"Q1 Financial Report\",\n    \"original_name\": \"2024年度财务报告_Q1\"\n\x7d\n\nExample 2 (English file):\nInput: \"meeting_notes_2023_12_15.docx\"\nOutput:\n\x7b\n    \"category\": \"Work\",\n    \"year\": \"2023\",\n    \"month\": \"12\",\n    \"summary\": \"Meeting notes from December 15\",\n    \"original_name\": \"meeting_notes_2023_12_15\"\n\x7d\n\nExample 3 (Chinese contract):\nInput: \"采购合同_2024_03.pdf\"\nOutput:\n\x7b\n    \"category\": \"Contract\",\n    \"year\": \"2024\",\n    \"month\": \"03\",\n    \"summary\": \"Purchase contract\",\n    \"original_name\": \"采购合同_2024_03\"\n\x7d\n"

/-- The constraint block appended by `build_dynamic_prompt` for a rule whose
options list is non-empty. -/
def constraintBlock (key : String) (opts : List String) : String :=
  "\n\n'" ++ key ++ "' 字段的重要约束：\n" ++
  "字段 '" ++ key ++ "' 必须是以下值之一：" ++ joinSep ", " opts ++ "。\n" ++
  "如果不确定，请从这些选项中选择最接近的匹配项。不要使用任何其他值。\n" ++
  "这是一个分类任务（多选），而不是开放式生成。"

/-- The Python test `options and len(options) > 0` on a rule's options field. -/
def hasConstraint (r : RuleSpec) : Bool :=
  match r.options with
  | some opts => opts ≠ []
  | none => false

/-- The constraint block a rule with a non-empty options list contributes. -/
def blockOf (r : RuleSpec) : String :=
  constraintBlock r.key (r.options.getD [])

/-- The body of the `for rule in parsed_rules` loop of `build_dynamic_prompt`:
append a constraint block when `options and len(options) > 0`. -/
def constraintsFold (acc : List String) (r : RuleSpec) : List String :=
  match r.options with
  | some opts => if opts ≠ [] then acc ++ [constraintBlock r.key opts] else acc
  | none => acc

/-- `build_dynamic_prompt` from `src/core/ai_engine.py`: the `for rule in
parsed_rules` loop accumulating `constraints`, then the final concatenation. -/
def build_dynamic_prompt (parsed_rules : List RuleSpec) : String :=
  let constraints := parsed_rules.foldl constraintsFold []
  if constraints ≠ [] then SYSTEM_PROMPT ++ "\n" ++ joinSep "\n" constraints
  else SYSTEM_PROMPT

/-! ## Parser registry (`src/core/parsers/__init__.py`) -/

/-- A Python class as the registry sees it: its identity, whether it is a
(nominal) subclass of `BaseParser`, and whether it defines the two capability
methods. -/
structure PyClass where
  name : String
  isSubclassOfBaseParser : Bool
  hasExtractText : Bool
  hasExtractMetadata : Bool
deriving DecidableEq, Repr

def PDFParser : PyClass := ⟨"PDFParser", true, true, true⟩
def DOCXParser : PyClass := ⟨"DOCXParser", true, true, true⟩
def ExcelParser : PyClass := ⟨"ExcelParser", true, true, true⟩
def PPTXParser : PyClass := ⟨"PPTXParser", true, true, true⟩
def TextParser : PyClass := ⟨"TextParser", true, true, true⟩

/-- The registry dictionary: insertion-ordered string-keyed mapping. -/
abbrev Registry := List (String × PyClass)

/-- Python dict assignment `d[k] = v`: replace in place or append. -/
def dictSet (reg : Registry) (k : String) (v : PyClass) : Registry :=
  match reg with
  | [] => [(k, v)]
  | (k', v') :: t => if k' = k then (k, v) :: t else (k', v') :: dictSet t k v

/-- Python `d.get(k)` on the registry. -/
def dictGetP (reg : Registry) (k : String) : Option PyClass :=
  (List.find? (fun p => p.1 == k) reg).map (fun p => p.2)

/-- The pre-populated `ParserFactory._parsers` table. -/
def builtinRegistry : Registry :=
  [(".pdf", PDFParser), (".docx", DOCXParser), (".doc", DOCXParser),
   (".xlsx", ExcelParser), (".xls", ExcelParser), (".csv", ExcelParser),
   (".pptx", PPTXParser), (".ppt", PPTXParser),
   (".txt", TextParser), (".md", TextParser), (".py", TextParser),
   (".js", TextParser), (".java", TextParser), (".cpp", TextParser),
   (".c", TextParser), (".h", TextParser), (".json", TextParser),
   (".xml", TextParser), (".html", TextParser), (".css", TextParser)]

/-- `ParserFactory.register_parser`: reject non-subclasses of `BaseParser`
(`Except.error` models the raised `TypeError`), otherwise bind the lower-cased
extension. -/
def registerParserOp (reg : Registry) (extension : String) (cls : PyClass) :
    Except String Registry :=
  if !cls.isSubclassOfBaseParser then .error "Parser class must inherit from BaseParser"
  else .ok (dictSet reg ⟨lowerL extension.data⟩ cls)

/-- `ParserFactory.get_parser`, with the file's `Path(file_path).suffix` supplied
as the argument: look up the lower-cased suffix (`Except.error` models the
raised `ValueError`). -/
def getParserOp (reg : Registry) (suffix : String) : Except String PyClass :=
  match dictGetP reg ⟨lowerL suffix.data⟩ with
  | some c => .ok c
  | none => .error "No parser available for file extension"

/-- Modelled from the spec's words for the C7 comparison: a variant
"implements the parser capability set (`extract_text`, `extract_metadata`)"
when it defines both capability methods. -/
def implementsParserCapabilities (cls : PyClass) : Bool :=
  cls.hasExtractText && cls.hasExtractMetadata

/-! ## Supporting lemmas -/

theorem classifyScan_eq_find? (rc : List Char) (options : List String) :
    classifyScan rc options = options.find? (fun o => containsSub (lowerL o.data) rc) := by
  induction options with
  | nil => rfl
  | cons o t ih =>
    rw [List.find?_cons]
    cases h : containsSub (lowerL o.data) rc <;> simp [classifyScan, h, ih]

theorem dictGetP_dictSet_self (reg : Registry) (k : String) (v : PyClass) :
    dictGetP (dictSet reg k v) k = some v := by
  induction reg with
  | nil => simp [dictSet, dictGetP]
  | cons p t ih =>
    obtain ⟨k', v'⟩ := p
    by_cases h : k' = k
    · subst h
      simp [dictSet, dictGetP, List.find?_cons]
    · have hf : (k' == k) = false := by simpa using h
      simp only [dictSet, if_neg h]
      simp only [dictGetP, List.find?_cons, hf] at ih ⊢
      exact ih

theorem dictGetP_dictSet_ne (reg : Registry) (k : String) (v : PyClass) (k' : String)
    (h : k' ≠ k) : dictGetP (dictSet reg k v) k' = dictGetP reg k' := by
  have hkk : (k == k') = false := by simpa using Ne.symm h
  induction reg with
  | nil => simp [dictSet, dictGetP, List.find?_cons, hkk]
  | cons p t ih =>
    obtain ⟨k₀, v₀⟩ := p
    by_cases h₀ : k₀ = k
    · subst h₀
      simp [dictSet, dictGetP, List.find?_cons, hkk]
    · simp only [dictSet, if_neg h₀]
      by_cases h₁ : k₀ = k'
      · subst h₁
        simp [dictGetP, List.find?_cons]
      · have hf : (k₀ == k') = false := by simpa using h₁
        simp only [dictGetP, List.find?_cons, hf] at ih ⊢
        exact ih

theorem buildConstraints_eq (rules : List RuleSpec) (acc : List String) :
    rules.foldl constraintsFold acc = acc ++ (rules.filter hasConstraint).map blockOf := by
  induction rules generalizing acc with
  | nil => simp
  | cons r t ih =>
    rw [List.foldl_cons, ih, List.filter_cons]
    cases ho : r.options with
    | none => simp [constraintsFold, ho, hasConstraint]
    | some opts =>
      cases opts with
      | nil => simp [constraintsFold, ho, hasConstraint]
      | cons o os =>
        simp [constraintsFold, ho, hasConstraint, blockOf, List.append_assoc]

theorem toNat_ofNat_valid {n : Nat} (h : n < 55296) : (Char.ofNat n).toNat = n := by
  rw [Char.ofNat, dif_pos (Or.inl h)]
  simp [Char.ofNatAux, Char.toNat]
  rfl

theorem lowerChar_idem (c : Char) : lowerChar (lowerChar c) = lowerChar c := by
  unfold lowerChar
  by_cases h : 65 ≤ c.toNat ∧ c.toNat ≤ 90
  · rw [if_pos h]
    have ht : (Char.ofNat (c.toNat + 32)).toNat = c.toNat + 32 :=
      toNat_ofNat_valid (by omega)
    rw [if_neg (by rw [ht]; omega)]
  · rw [if_neg h, if_neg h]

theorem lowerL_idem (l : List Char) : lowerL (lowerL l) = lowerL l := by
  simp only [lowerL, List.map_map]
  exact List.map_congr_left (fun c _ => lowerChar_idem c)

theorem dictSet_mem (reg : Registry) (k : String) (v : PyClass) (p : String × PyClass)
    (hp : p ∈ dictSet reg k v) : p = (k, v) ∨ p ∈ reg := by
  induction reg with
  | nil => simpa [dictSet] using hp
  | cons q t ih =>
    obtain ⟨k₀, v₀⟩ := q
    by_cases h₀ : k₀ = k
    · subst h₀
      simp only [dictSet, if_pos rfl] at hp
      rcases List.mem_cons.mp hp with h | h
      · exact Or.inl h
      · exact Or.inr (List.mem_cons_of_mem _ h)
    · simp only [dictSet, if_neg h₀] at hp
      rcases List.mem_cons.mp hp with h | h
      · exact Or.inr (List.mem_cons.mpr (Or.inl h))
      · rcases ih h with h' | h'
        · exact Or.inl h'
        · exact Or.inr (List.mem_cons_of_mem _ h')

/-! ## Claims -/

/-- C2 (counterexample): on an empty options list, `classify` does not return a
member of the options list — the Python code raises `IndexError` at
`options[0]`, modelled as `none`; the claim quantifies over every list of
options. -/
theorem classify_claim_counterexample :
    classifyChoose "whatever" [] = none ∧
      ¬∃ r, classifyChoose "whatever" [] = some r ∧ r ∈ ([] : List String) := by
  refine ⟨rfl, ?_⟩
  rintro ⟨r, -, hr⟩
  exact (List.not_mem_nil r) hr

/-- C2 (amended): for every text input and every NON-EMPTY options list,
`classify` returns a member of the options list: the first option (in supplied
order) occurring case-insensitively as a substring of the backend's stripped
response, and the first element of the list when no option matches. -/
theorem classify_claim_amended (response : String) (options : List String)
    (h : options ≠ []) :
    ∃ r, classifyChoose response options = some r ∧ r ∈ options ∧
      classifyChoose response options =
        some ((options.find? fun o =>
          containsSub (lowerL o.data) (lowerL (stripL response.data))).getD
            (options.head h)) := by
  unfold classifyChoose
  rw [classifyScan_eq_find?]
  cases hf : options.find? fun o => containsSub (lowerL o.data) (lowerL (stripL response.data)) with
  | some o => exact ⟨o, rfl, List.mem_of_find?_eq_some hf, by simp⟩
  | none =>
    refine ⟨options.head h, ?_, List.head_mem h, ?_⟩ <;> simp [List.head?_eq_head h]

/-- C2 (witness): the amended claim applied at a concrete response and a
concrete two-element options list, on which the second option matches. -/
theorem classify_claim_witness :
    classifyChoose "  The answer is: invoice " ["Contract", "Invoice"] = some "Invoice" := by
  obtain ⟨r, -, -, h3⟩ :=
    classify_claim_amended "  The answer is: invoice " ["Contract", "Invoice"] (by decide)
  rw [h3]
  rfl

/-- C7 (counterexample): a class that defines both capability methods
(`extract_text`, `extract_metadata`) but does not inherit from `BaseParser` is
rejected by `register_parser` with `TypeError`, contradicting "a variant
implementing that capability set is accepted". -/
theorem register_capability_counterexample :
    implementsParserCapabilities ⟨"DuckTyped", false, true, true⟩ = true
    ∧ registerParserOp builtinRegistry ".duck" ⟨"DuckTyped", false, true, true⟩
        = .error "Parser class must inherit from BaseParser" :=
  ⟨rfl, rfl⟩

/-- C7 (amended): `register_parser(extension, variant)` overwrites any existing
binding for the lower-cased extension and leaves other bindings unchanged; it
raises `TypeError` exactly when the variant is not a subclass of `BaseParser` —
the check is nominal inheritance, not a structural check of the two capability
methods. -/
theorem register_parser_contract (reg : Registry) (ext : String) (cls : PyClass) :
    ((∃ e, registerParserOp reg ext cls = .error e) ↔ cls.isSubclassOfBaseParser = false)
    ∧ (cls.isSubclassOfBaseParser = true →
        ∃ reg', registerParserOp reg ext cls = .ok reg'
          ∧ dictGetP reg' ⟨lowerL ext.data⟩ = some cls
          ∧ ∀ k : String, k ≠ ⟨lowerL ext.data⟩ → dictGetP reg' k = dictGetP reg k) := by
  cases hb : cls.isSubclassOfBaseParser with
  | false =>
    refine ⟨by simp [registerParserOp, hb], fun h => absurd h (by simp)⟩
  | true =>
    refine ⟨by simp [registerParserOp, hb], fun _ => ?_⟩
    refine ⟨dictSet reg ⟨lowerL ext.data⟩ cls, by simp [registerParserOp, hb], ?_, ?_⟩
    · exact dictGetP_dictSet_self reg _ cls
    · exact fun k hk => dictGetP_dictSet_ne reg _ cls k hk

/-- C7 (witness): registering a `BaseParser` subclass under `".PDF"` succeeds
and overwrites the built-in `".pdf"` binding (which previously mapped to
`PDFParser`). -/
theorem register_parser_contract_witness :
    ∃ reg', registerParserOp builtinRegistry ".PDF" ⟨"CustomPdf", true, true, true⟩ = .ok reg'
      ∧ dictGetP reg' ".pdf" = some ⟨"CustomPdf", true, true, true⟩
      ∧ dictGetP builtinRegistry ".pdf" = some PDFParser := by
  obtain ⟨reg', h1, h2, -⟩ :=
    (register_parser_contract builtinRegistry ".PDF" ⟨"CustomPdf", true, true, true⟩).2 rfl
  have he : (⟨lowerL ".PDF".data⟩ : String) = ".pdf" := by decide
  rw [he] at h2
  exact ⟨reg', h1, h2, rfl⟩

/-- C8: an empty or whitespace-only instruction parses to the empty rule chain,
and `generate_target_path` on it returns the literal `"Unknown"` for every
classification record. -/
theorem empty_instruction (s : String) (h : stripL s.data = []) :
    parse_rule_string s = [] ∧
      ∀ record : ClassRecord, generate_target_path s record = "Unknown" := by
  have hp : parse_rule_string s = [] := by simp [parse_rule_string, h]
  exact ⟨hp, fun record => by simp [generate_target_path, hp]⟩

/-- C8 (witness): the claim applied to the whitespace-only instruction
`"   "` and a concrete record. -/
theorem empty_instruction_witness :
    parse_rule_string "   " = [] ∧
      generate_target_path "   " [("year", PyVal.vstr "2024")] = "Unknown" := by
  obtain ⟨h1, h2⟩ := empty_instruction "   " (by decide)
  exact ⟨h1, h2 _⟩

/-- C9: `build_dynamic_prompt` returns the base prompt unchanged when no rule
carries a non-empty options list (including the empty chain); otherwise it
returns the base prompt followed by exactly one constraint block per
constrained rule, in rule-chain order; the result always begins with the base
prompt. -/
theorem build_dynamic_prompt_claim (rules : List RuleSpec) :
    ((∀ r ∈ rules, hasConstraint r = false) → build_dynamic_prompt rules = SYSTEM_PROMPT)
    ∧ build_dynamic_prompt rules =
        (if (rules.filter hasConstraint).map blockOf ≠ []
         then SYSTEM_PROMPT ++ "\n" ++ joinSep "\n" ((rules.filter hasConstraint).map blockOf)
         else SYSTEM_PROMPT)
    ∧ ∃ rest, build_dynamic_prompt rules = SYSTEM_PROMPT ++ rest := by
  have h2 : build_dynamic_prompt rules =
      (if (rules.filter hasConstraint).map blockOf ≠ []
       then SYSTEM_PROMPT ++ "\n" ++ joinSep "\n" ((rules.filter hasConstraint).map blockOf)
       else SYSTEM_PROMPT) := by
    unfold build_dynamic_prompt
    rw [buildConstraints_eq rules []]
    simp
  refine ⟨?_, h2, ?_⟩
  · intro hall
    have hnil : rules.filter hasConstraint = [] :=
      List.filter_eq_nil_iff.mpr (fun r hr => by simp [hall r hr])
    rw [h2, hnil]
    simp
  · rw [h2]
    by_cases hc : (rules.filter hasConstraint).map blockOf = []
    · exact ⟨"", by simp [hc]⟩
    · exact ⟨"\n" ++ joinSep "\n" ((rules.filter hasConstraint).map blockOf),
        by simp [hc, String.ext_iff]⟩

/-- C9 (witness): the claim applied to a chain with one unconstrained rule:
the base prompt comes back unchanged. -/
theorem build_dynamic_prompt_witness :
    build_dynamic_prompt [⟨"year", none⟩] = SYSTEM_PROMPT :=
  (build_dynamic_prompt_claim [⟨"year", none⟩]).1 (by decide)

/-- C4: in PDF hybrid extraction, the OCR-escalation branch is taken if and
only if the page count is positive and the stripped sampled text (first
`SAMPLE_PAGES` pages) is shorter than `MIN_TEXT_LENGTH`; and when OCR yields no
usable text (the empty string), the sampled text is kept rather than
replaced. -/
theorem pdf_escalation (ocr : String → List String) (pages : List String) :
    ((pdfExtractText ocr pages).2 = true ↔
      0 < pages.length ∧ (stripL (sampledText pages).data).length < MIN_TEXT_LENGTH)
    ∧ (extractWithOcr ocr pages = "" →
       (pdfExtractText ocr pages).1 =
         (if SAMPLE_PAGES < pages.length then sampledText pages ++ tailTextPdf pages
          else sampledText pages)) := by
  constructor
  · simp [pdfExtractText, and_comm]
  · intro ho
    simp only [pdfExtractText, pdfStage24, ho]
    by_cases hc : (stripL (sampledText pages).data).length < MIN_TEXT_LENGTH ∧ 0 < pages.length
    · rw [if_pos hc]
      simp
    · rw [if_neg hc]

/-- C4 (witness): a one-page document with a single character escalates to
OCR; with an OCR engine returning nothing, the sampled text `"x"` is kept. -/
theorem pdf_escalation_witness :
    (pdfExtractText (fun _ => []) ["x"]).2 = true
    ∧ (pdfExtractText (fun _ => []) ["x"]).1 = "x" := by
  have h := pdf_escalation (fun _ => []) ["x"]
  refine ⟨h.1.mpr (by decide), ?_⟩
  rw [h.2 rfl]
  rfl

/-- C5: whenever the page count exceeds `SAMPLE_PAGES`, the tail pages are
direct-extracted and appended to the outcome of the sampling/OCR stage,
whatever the OCR function did; and the OCR pass only ever reads the first
`MAX_OCR_PAGES` pages. -/
theorem pdf_tail (ocr : String → List String) (pages : List String)
    (h : SAMPLE_PAGES < pages.length) :
    (pdfExtractText ocr pages).1 = pdfStage24 ocr pages ++ tailTextPdf pages
    ∧ extractWithOcr ocr pages = extractWithOcr ocr (pages.take MAX_OCR_PAGES) := by
  constructor
  · simp [pdfExtractText, if_pos h]
  · unfold extractWithOcr
    rw [List.take_take, Nat.min_self]

/-- C5 (witness): the claim applied to a six-page document whose first five
pages are blank, with an OCR engine recognizing one line per page. -/
theorem pdf_tail_witness :
    (pdfExtractText (fun _ => ["z"]) ["", "", "", "", "", "b6"]).1
      = pdfStage24 (fun _ => ["z"]) ["", "", "", "", "", "b6"]
        ++ tailTextPdf ["", "", "", "", "", "b6"]
    ∧ extractWithOcr (fun _ => ["z"]) ["", "", "", "", "", "b6"]
        = extractWithOcr (fun _ => ["z"]) (["", "", "", "", "", "b6"].take MAX_OCR_PAGES) :=
  pdf_tail (fun _ => ["z"]) ["", "", "", "", "", "b6"] (by decide)

/-- C10: every key of the parser registry is a lower-case extension string —
the built-in table satisfies this, `register_parser` preserves it by
lower-casing the extension before insertion, and `get_parser` (which looks up
the lower-cased file suffix) therefore finds a binding registered under any
letter-casing of the same extension. -/
theorem registry_lowercase :
    (∀ p ∈ builtinRegistry, lowerL p.1.data = p.1.data)
    ∧ (∀ (reg : Registry) (ext : String) (cls : PyClass) (reg' : Registry),
        registerParserOp reg ext cls = .ok reg' →
        (∀ p ∈ reg, lowerL p.1.data = p.1.data) →
        ∀ p ∈ reg', lowerL p.1.data = p.1.data)
    ∧ (∀ (reg : Registry) (ext : String) (cls : PyClass) (reg' : Registry) (suffix : String),
        registerParserOp reg ext cls = .ok reg' →
        lowerL suffix.data = lowerL ext.data →
        getParserOp reg' suffix = .ok cls) := by
  refine ⟨by decide, ?_, ?_⟩
  · intro reg ext cls reg' hok hinv p hp
    by_cases hb : cls.isSubclassOfBaseParser
    · simp only [registerParserOp, hb, Bool.not_true, Bool.false_eq_true, if_false,
        Except.ok.injEq] at hok
      subst hok
      rcases dictSet_mem reg _ cls p hp with h | h
      · rw [h]
        exact lowerL_idem ext.data
      · exact hinv p h
    · simp [registerParserOp, hb] at hok
  · intro reg ext cls reg' suffix hok hsuff
    by_cases hb : cls.isSubclassOfBaseParser
    · simp only [registerParserOp, hb, Bool.not_true, Bool.false_eq_true, if_false,
        Except.ok.injEq] at hok
      subst hok
      unfold getParserOp
      rw [show (⟨lowerL suffix.data⟩ : String) = ⟨lowerL ext.data⟩ from congrArg String.mk hsuff,
        dictGetP_dictSet_self]
    · simp [registerParserOp, hb] at hok

/-- C10 (witness): an extension registered as `".xyz"` is found by a lookup of
the differently-cased suffix `".XYZ"`. -/
theorem registry_lowercase_witness :
    ∃ reg', registerParserOp builtinRegistry ".xyz" TextParser = .ok reg'
      ∧ getParserOp reg' ".XYZ" = .ok TextParser :=
  ⟨_, rfl, registry_lowercase.2.2 builtinRegistry ".xyz" TextParser _ ".XYZ" rfl (by decide)⟩

theorem segmentOf_ne_empty (record : ClassRecord) (r : RuleSpec) :
    segmentOf record r ≠ "" := by
  unfold segmentOf
  cases hd : dictGetV record r.key with
  | none => decide
  | some v =>
    show (if pyTruthy v = true ∧ stripL (pyStr v).data ≠ []
          then (⟨stripL (pyStr v).data⟩ : String) else "Unknown") ≠ ""
    split
    · next hcond =>
        intro he
        exact hcond.2 (congrArg String.data he)
    · decide

theorem ospathJoin_foldl (t : List String) (path : String)
    (hp1 : path ≠ "") (hp2 : path.data.getLast? ≠ some '/')
    (ht : ∀ s ∈ t, s ≠ "" ∧ s.data.head? ≠ some '/' ∧ s.data.getLast? ≠ some '/') :
    t.foldl ospJoin2 path = joinSep "/" (path :: t) := by
  induction t generalizing path with
  | nil => rfl
  | cons s t' ih =>
    obtain ⟨hs1, hs2, hs3⟩ := ht s (List.mem_cons_self s t')
    have hstep : ospJoin2 path s = path ++ "/" ++ s := by
      unfold ospJoin2
      rw [if_neg hs2, if_neg (by simp [hp1, hp2])]
    have hlast : (path ++ "/" ++ s).data.getLast? ≠ some '/' := by
      have hd : (path ++ "/" ++ s).data = (path ++ "/").data ++ s.data := by
        simp
      rw [hd, List.getLast?_append]
      cases hgl : s.data.getLast? with
      | none =>
        have hsnil : s = "" := String.ext (by simpa using List.getLast?_eq_none_iff.mp hgl)
        exact absurd hsnil hs1
      | some c =>
        rw [hgl] at hs3
        simpa using hs3
    have hne : (path ++ "/" ++ s) ≠ "" := by
      intro he
      have hm : '/' ∈ (path ++ "/" ++ s).data := by
        rw [String.data_append, String.data_append]
        exact List.mem_append_left _ (List.mem_append_right _ (by decide))
      rw [he] at hm
      simp at hm
    rw [List.foldl_cons, hstep, ih _ hne hlast (fun x hx => ht x (List.mem_cons_of_mem s hx))]
    cases t' with
    | nil => rfl
    | cons u t'' =>
      show (path ++ "/" ++ s) ++ "/" ++ joinSep "/" (u :: t'')
        = path ++ "/" ++ (s ++ "/" ++ joinSep "/" (u :: t''))
      simp [String.append_assoc]

/-- C1 (counterexample): the claim fails on the code in two ways.  With the
falsy record value `0`, the key `"year"` is present and `str(0).strip() = "0"`
is non-empty, so the claim demands the segment `"0"`, but the code's `if value
and ...` truthiness test yields `"Unknown"`.  And with a segment value starting
with the separator, `os.path.join` discards the earlier segments instead of
joining them, so the path is `"/b"`, not one segment per RuleSpec joined with
the separator (`"a//b"`). -/
theorem generate_target_path_counterexample :
    generate_target_path "year" [("year", PyVal.vint 0)] = "Unknown"
    ∧ stripL (pyStr (PyVal.vint 0)).data ≠ []
    ∧ generate_target_path "类型 >> 年份"
        [("category", PyVal.vstr "a"), ("year", PyVal.vstr "/b")] = "/b" := by
  exact ⟨by decide, by decide, by decide⟩

/-- C1 (amended): `generate_target_path` produces exactly one path segment per
RuleSpec parsed from the rule string, in chain order; a segment is the record's
stringified, stripped value when the RuleSpec's key is present with a TRUTHY
value whose stringified, stripped form is non-empty, and the sentinel
`"Unknown"` otherwise; the segments are combined with `os.path.join`, which
coincides with joining on the platform path separator whenever no segment
begins or ends with the separator. -/
theorem generate_target_path_amended (rule_string : String) (record : ClassRecord)
    (h : parse_rule_string rule_string ≠ []) :
    generate_target_path rule_string record
      = ospathJoinList ((parse_rule_string rule_string).map (segmentOf record))
    ∧ ((parse_rule_string rule_string).map (segmentOf record)).length
        = (parse_rule_string rule_string).length
    ∧ ((∀ s ∈ (parse_rule_string rule_string).map (segmentOf record),
          s.data.head? ≠ some '/' ∧ s.data.getLast? ≠ some '/') →
        generate_target_path rule_string record
          = joinSep "/" ((parse_rule_string rule_string).map (segmentOf record))) := by
  have hmap : (parse_rule_string rule_string).map (segmentOf record) ≠ [] := by
    simpa using h
  have h1 : generate_target_path rule_string record
      = ospathJoinList ((parse_rule_string rule_string).map (segmentOf record)) := by
    unfold generate_target_path
    rw [if_neg h, if_neg hmap]
  refine ⟨h1, List.length_map _ _, fun hs => ?_⟩
  rw [h1]
  cases hm : (parse_rule_string rule_string).map (segmentOf record) with
  | nil => exact absurd hm hmap
  | cons s t =>
    show t.foldl ospJoin2 s = _
    have hmem : ∀ x ∈ s :: t, x ≠ "" ∧ x.data.head? ≠ some '/' ∧ x.data.getLast? ≠ some '/' := by
      intro x hx
      have hx' : x ∈ (parse_rule_string rule_string).map (segmentOf record) := hm ▸ hx
      obtain ⟨r, -, hr⟩ := List.mem_map.mp hx'
      exact ⟨hr ▸ segmentOf_ne_empty record r, (hs x hx').1, (hs x hx').2⟩
    exact ospathJoin_foldl t s (hmem s (List.mem_cons_self s t)).1
      (hmem s (List.mem_cons_self s t)).2.2
      (fun x hx => hmem x (List.mem_cons_of_mem s hx))

/-- C1 (witness): the amended claim applied to the bilingual example rule and a
fully populated record: the path is the two segments joined with the
separator. -/
theorem generate_target_path_amended_witness :
    generate_target_path "类型 >> 年份"
      [("category", PyVal.vstr "Work"), ("year", PyVal.vstr "2024")] = "Work/2024" := by
  have h3 := (generate_target_path_amended "类型 >> 年份"
    [("category", PyVal.vstr "Work"), ("year", PyVal.vstr "2024")] (by decide)).2.2 (by decide)
  exact h3.trans (by decide)

theorem takeWhile_append_cons_of {α : Type} (p : α → Bool) (l : List α) (x : α) (r : List α)
    (hl : ∀ y ∈ l, p y = true) (hx : p x = false) :
    (l ++ x :: r).takeWhile p = l := by
  induction l with
  | nil => simp [List.takeWhile_cons, hx]
  | cons a t ih =>
    have ha := hl a (List.mem_cons_self a t)
    simp [List.takeWhile_cons, ha, ih (fun y hy => hl y (List.mem_cons_of_mem a hy))]

theorem dropWhile_append_cons_of {α : Type} (p : α → Bool) (l : List α) (x : α) (r : List α)
    (hl : ∀ y ∈ l, p y = true) (hx : p x = false) :
    (l ++ x :: r).dropWhile p = x :: r := by
  induction l with
  | nil => simp [List.dropWhile_cons, hx]
  | cons a t ih =>
    have ha := hl a (List.mem_cons_self a t)
    simp [List.dropWhile_cons, ha, ih (fun y hy => hl y (List.mem_cons_of_mem a hy))]

theorem mem_of_mem_stripL {x : Char} {l : List Char} (hx : x ∈ stripL l) : x ∈ l :=
  (List.dropWhile_suffix pySpace).subset ((List.rdropWhile_prefix pySpace _).subset hx)

theorem stripL_idem (l : List Char) : stripL (stripL l) = stripL l := by
  by_cases hnil : stripL l = []
  · rw [hnil]
    rfl
  · obtain ⟨c, cs, hs⟩ : ∃ c cs, stripL l = c :: cs := by
      cases h : stripL l with
      | nil => exact absurd h hnil
      | cons a b => exact ⟨a, b, rfl⟩
    have ht : l.dropWhile pySpace ≠ [] := fun h0 => hnil (by rw [stripL, h0]; rfl)
    have hhead : pySpace c = false := by
      have hcq : (l.dropWhile pySpace).head? = some c := by
        obtain ⟨r, hr⟩ := List.rdropWhile_prefix pySpace (l.dropWhile pySpace)
        have hr' : stripL l ++ r = l.dropWhile pySpace := hr
        rw [← hr', hs]
        rfl
      have hc2 : (l.dropWhile pySpace).head ht = c :=
        Option.some.inj ((List.head?_eq_head ht).symm.trans hcq)
      have hnot := List.head_dropWhile_not pySpace l ht
      rw [hc2] at hnot
      simpa using hnot
    have hlast : List.rdropWhile pySpace (stripL l) = stripL l :=
      List.rdropWhile_idempotent pySpace (l.dropWhile pySpace)
    show List.rdropWhile pySpace ((stripL l).dropWhile pySpace) = stripL l
    have h1 : (stripL l).dropWhile pySpace = stripL l := by
      rw [hs, List.dropWhile_cons, hhead]
      simp
    rw [h1, hlast]

theorem parseRulePart_no_bracket (part : List Char) (hb : '[' ∉ part)
    (hne : stripL part ≠ []) :
    parseRulePartL part = ⟨fieldLookup ⟨lowerL (stripL part)⟩, none⟩ := by
  have hb' : '[' ∉ stripL part := fun hx => hb (mem_of_mem_stripL hx)
  have htake : (stripL part).takeWhile (fun c => c != '[') = stripL part :=
    List.takeWhile_eq_self_iff.mpr (fun x hx => bne_iff_ne.mpr fun he => hb' (he ▸ hx))
  have hdrop : (stripL part).dropWhile (fun c => c != '[') = [] :=
    List.dropWhile_eq_nil_iff.mpr (fun x hx => bne_iff_ne.mpr fun he => hb' (he ▸ hx))
  unfold parseRulePartL matchRulePattern
  simp only [htake, hdrop, if_neg hne]
  rw [stripL_idem]

theorem parseRulePart_bracket (A B : List Char)
    (hA : '[' ∉ A) (hA2 : A ≠ []) (hB : ']' ∉ B) (hB2 : B ≠ [])
    (hstr : stripL (A ++ '[' :: (B ++ [']'])) = A ++ '[' :: (B ++ [']'])) :
    parseRulePartL (A ++ '[' :: (B ++ [']'])) =
      ⟨fieldLookup ⟨lowerL (stripL A)⟩, some (cleanOpts B)⟩ := by
  have htake : (A ++ '[' :: (B ++ [']'])).takeWhile (fun c => c != '[') = A :=
    takeWhile_append_cons_of _ A '[' _
      (fun y hy => bne_iff_ne.mpr fun he => hA (he ▸ hy)) (by decide)
  have hdrop : (A ++ '[' :: (B ++ [']'])).dropWhile (fun c => c != '[') = '[' :: (B ++ [']']) :=
    dropWhile_append_cons_of _ A '[' _
      (fun y hy => bne_iff_ne.mpr fun he => hA (he ▸ hy)) (by decide)
  have htakeB : (B ++ [']']).takeWhile (fun c => c != ']') = B := by
    simpa using takeWhile_append_cons_of _ B ']' []
      (fun y hy => bne_iff_ne.mpr (fun he : y = ']' => hB (he ▸ hy))) (by decide)
  have hdropB : (B ++ [']']).dropWhile (fun c => c != ']') = [']'] := by
    simpa using dropWhile_append_cons_of _ B ']' []
      (fun y hy => bne_iff_ne.mpr (fun he : y = ']' => hB (he ▸ hy))) (by decide)
  unfold parseRulePartL matchRulePattern
  simp only [hstr, htake, hdrop, htakeB, hdropB, if_neg hA2, if_neg hB2, if_pos hB2]

/-- C6: the per-token behavior of `parse_rule_string`.  A token with no
bracket yields the synonym-table lookup of the lower-cased stripped name (with
lower-cased pass-through for unmapped names) and absent options; a token of
the form `name [opts]` additionally yields the bracket contents split on ASCII
or full-width commas, stripped, with empties discarded; unmapped names pass
through unchanged; and the spec's example parses as stated. -/
theorem parse_rule_tokens_claim :
    (∀ part : List Char, '[' ∉ part → stripL part ≠ [] →
       parseRulePartL part = ⟨fieldLookup ⟨lowerL (stripL part)⟩, none⟩)
    ∧ (∀ A B : List Char, '[' ∉ A → A ≠ [] → ']' ∉ B → B ≠ [] →
        stripL (A ++ '[' :: (B ++ [']'])) = A ++ '[' :: (B ++ [']']) →
        parseRulePartL (A ++ '[' :: (B ++ [']'])) =
          ⟨fieldLookup ⟨lowerL (stripL A)⟩, some (cleanOpts B)⟩)
    ∧ (∀ name : String, (∀ p ∈ field_mapping, p.1 ≠ name) → fieldLookup name = name)
    ∧ parse_rule_string "Category [Contract, Invoice, Manual] >> Year" =
        [⟨"category", some ["Contract", "Invoice", "Manual"]⟩, ⟨"year", none⟩] := by
  refine ⟨parseRulePart_no_bracket, parseRulePart_bracket, ?_, by decide⟩
  intro name h
  unfold fieldLookup
  rw [List.find?_eq_none.mpr (fun p hp => by simpa using h p hp)]
  rfl

/-- C6 (witness): the tokens `"YEAR"` (case-insensitive synonym lookup) and
`"Tags [A,， B ]"` (full-width comma, stripping, pass-through name) under the
per-token claims. -/
theorem parse_rule_tokens_witness :
    parseRulePartL "YEAR".data = ⟨"year", none⟩
    ∧ parseRulePartL "Tags [A,， B ]".data = ⟨"tags", some ["A", "B"]⟩ := by
  obtain ⟨ha, hb, -, -⟩ := parse_rule_tokens_claim
  constructor
  · exact (ha "YEAR".data (by decide) (by decide)).trans (by decide)
  · have harg : "Tags [A,， B ]".data = "Tags ".data ++ '[' :: ("A,， B ".data ++ [']']) := by
      decide
    rw [harg]
    exact (hb "Tags ".data "A,， B ".data (by decide) (by decide) (by decide) (by decide)
      (by decide)).trans (by decide)

theorem rdropWhile_append_rtakeWhile {α : Type} (p : α → Bool) (l : List α) :
    List.rdropWhile p l ++ List.rtakeWhile p l = l := by
  rw [List.rdropWhile, List.rtakeWhile, ← List.reverse_append, List.takeWhile_append_dropWhile,
    List.reverse_reverse]

theorem rdropWhile_decomp {α : Type} (p : α → Bool) (l : List α) :
    ∃ c, l = List.rdropWhile p l ++ c ∧ ∀ x ∈ c, p x := by
  exact ⟨List.rtakeWhile p l, (rdropWhile_append_rtakeWhile p l).symm,
    fun x hx => List.mem_rtakeWhile_imp hx⟩

theorem ne_nil_head_getLast_shape {α : Type} (u : List α) (hu : u ≠ []) (x y : α)
    (hh : u.head? = some x) (hl : u.getLast hu = y) (hxy : x ≠ y) :
    ∃ m, u = x :: m ++ [y] := by
  cases u with
  | nil => exact absurd rfl hu
  | cons a tail =>
    have hax : a = x := Option.some.inj hh
    subst hax
    by_cases ht0 : tail = []
    · subst ht0
      have hay : a = y := hl
      exact absurd hay hxy
    · refine ⟨tail.dropLast, ?_⟩
      have h2 := List.dropLast_append_getLast ht0
      have h3 : tail.getLast ht0 = y := by
        rw [List.getLast_cons ht0] at hl
        exact hl
      rw [List.cons_append, ← h3, h2]

theorem mem_close_dropWhile (b c a : List Char) :
    '}' ∈ (a ++ '{' :: (b ++ '}' :: c)).dropWhile (fun ch => ch != '{') := by
  induction a with
  | nil =>
    rw [List.nil_append, List.dropWhile_cons, if_neg (by decide)]
    exact List.mem_cons_of_mem _ (List.mem_append_right _ (List.mem_cons_self '}' c))
  | cons x a' ih =>
    rw [List.cons_append, List.dropWhile_cons]
    by_cases hx : x = '{'
    · subst hx
      rw [if_neg (by decide)]
      exact List.mem_cons_of_mem _
        (List.mem_append_right _ (List.mem_cons_of_mem _
          (List.mem_append_right _ (List.mem_cons_self '}' c))))
    · rw [if_pos (bne_iff_ne.mpr hx)]
      exact ih

theorem braceSpan_some (s u : List Char) (h : braceSpanL s = some u) :
    ∃ a c m, s = a ++ u ++ c ∧ '{' ∉ a ∧ '}' ∉ c ∧ u = '{' :: m ++ ['}'] := by
  simp only [braceSpanL] at h
  split at h
  · exact absurd h (by simp)
  · next hne =>
    injection h with h'
    subst h'
    have hXne : List.rdropWhile (fun ch => ch != '}')
        (s.dropWhile (fun ch => ch != '{')) ≠ [] := hne
    have htne : s.dropWhile (fun ch => ch != '{') ≠ [] := fun h0 => hXne (by rw [h0]; rfl)
    obtain ⟨ctail, hct, hctp⟩ :=
      rdropWhile_decomp (fun ch => ch != '}') (s.dropWhile (fun ch => ch != '{'))
    have hh : (List.rdropWhile (fun ch => ch != '}')
        (s.dropWhile (fun ch => ch != '{'))).head? = some '{' := by
      have hh2 : (s.dropWhile (fun ch => ch != '{')).head htne = '{' := by
        simpa using List.head_dropWhile_not (fun ch => ch != '{') s htne
      have hh3 : (s.dropWhile (fun ch => ch != '{')).head? = some '{' := by
        rw [List.head?_eq_head htne, hh2]
      rw [hct] at hh3
      cases hX : List.rdropWhile (fun ch => ch != '}') (s.dropWhile (fun ch => ch != '{')) with
      | nil => exact absurd hX hXne
      | cons ch chs =>
        rw [hX] at hh3
        simpa using hh3
    have hgl : (List.rdropWhile (fun ch => ch != '}')
        (s.dropWhile (fun ch => ch != '{'))).getLast hXne = '}' := by
      simpa using List.rdropWhile_last_not (fun ch => ch != '}')
        (s.dropWhile (fun ch => ch != '{')) hXne
    obtain ⟨m, hm⟩ := ne_nil_head_getLast_shape _ hXne '{' '}' hh hgl (by decide)
    refine ⟨s.takeWhile (fun ch => ch != '{'), ctail, m, ?_, ?_, ?_, hm⟩
    · calc s = s.takeWhile (fun ch => ch != '{') ++ s.dropWhile (fun ch => ch != '{') :=
            (List.takeWhile_append_dropWhile _ _).symm
        _ = s.takeWhile (fun ch => ch != '{')
            ++ (List.rdropWhile (fun ch => ch != '}') (s.dropWhile (fun ch => ch != '{'))
                ++ ctail) := by rw [← hct]
        _ = _ := (List.append_assoc _ _ _).symm
    · exact fun hx => by simpa using List.mem_takeWhile_imp hx
    · exact fun hx => by simpa using hctp '}' hx

theorem braceSpan_isSome_iff (s : List Char) :
    (braceSpanL s).isSome = true ↔ ∃ a b c, s = a ++ '{' :: b ++ '}' :: c := by
  constructor
  · intro hs
    obtain ⟨u, hu⟩ := Option.isSome_iff_exists.mp hs
    obtain ⟨a, c, m, hsa, -, -, hm⟩ := braceSpan_some s u hu
    exact ⟨a, m, c, by rw [hsa, hm]; simp⟩
  · rintro ⟨a, b, c, rfl⟩
    have hmem : '}' ∈ ((a ++ '{' :: b) ++ '}' :: c).dropWhile (fun ch => ch != '{') := by
      rw [List.append_assoc, List.cons_append]
      exact mem_close_dropWhile b c a
    have hXne : List.rdropWhile (fun ch => ch != '}')
        (((a ++ '{' :: b) ++ '}' :: c).dropWhile (fun ch => ch != '{')) ≠ [] := by
      intro h0
      rw [List.rdropWhile_eq_nil_iff] at h0
      have := h0 '}' hmem
      simp at this
    simp only [braceSpanL, if_neg hXne, Option.isSome_some]

/-- C3: `extract_json` raises `InvalidModelResponse` (a `ValueError`) if and
only if the response has no brace-delimited span or the located span fails
decoding, and otherwise returns the decoded object of that span; the span the
greedy `re.search` pattern locates exists iff some `\x7b` is followed by some
`\x7d`, and runs from the first `\x7b` of the response to its last `\x7d`
(nothing before it contains a `\x7b`, nothing after it contains a `\x7d`).
The strict JSON decoder (`json.loads`) is abstracted as the `decode`
parameter. -/
theorem extract_json_claim {α : Type} (decode : String → Option α) (response : String) :
    ((braceSpanL response.data).isSome = true ↔
       ∃ a b c, response.data = a ++ '{' :: b ++ '}' :: c)
    ∧ ((∃ e, extract_json decode response = .error e) ↔
        (braceSpanL response.data = none ∨
         ∃ u, braceSpanL response.data = some u ∧ decode ⟨u⟩ = none))
    ∧ (∀ u, braceSpanL response.data = some u →
        (∃ a c m, response.data = a ++ u ++ c ∧ '{' ∉ a ∧ '}' ∉ c ∧ u = '{' :: m ++ ['}'])
        ∧ ∀ j, decode ⟨u⟩ = some j → extract_json decode response = .ok j) := by
  refine ⟨braceSpan_isSome_iff response.data, ?_, ?_⟩
  · unfold extract_json
    cases hb : braceSpanL response.data with
    | none => simp
    | some u =>
      cases hd : decode ⟨u⟩ with
      | none => simp [hd]
      | some j => simp [hd]
  · intro u hu
    refine ⟨braceSpan_some _ u hu, fun j hj => ?_⟩
    simp only [extract_json, hu, hj]

/-- C3 (witness): the claim applied to a concrete decoder and concrete
responses: the span `"\x7bc\x7d"` of `"a\x7bc\x7db"` decodes and is returned,
and a brace-free response is an error. -/
theorem extract_json_claim_witness :
    extract_json (fun s => if s = "{c}" then some (0 : Nat) else none) "a{c}b" = .ok 0
    ∧ ∃ e, extract_json (fun _ : String => (none : Option Nat)) "no braces" = .error e := by
  constructor
  · exact ((extract_json_claim (fun s => if s = "{c}" then some (0 : Nat) else none)
      "a{c}b").2.2 "{c}".data (by decide)).2 0 (by decide)
  · exact (extract_json_claim (fun _ : String => (none : Option Nat)) "no braces").2.1.mpr
      (Or.inl (by decide))

end FileClassify
